import Mathlib

/-!
Verification development for the VF3 subgraph-isomorphism bridge of
`vf3lib-rs`.

The repository's `src/cxx` headers give the invocation contract:
`vf3_bridge.hpp` declares the three entry points `run_vf3` (sequential),
`run_vf3l` (memory-lean) and `run_vf3p` (parallel), and
`vf3_bridge_common.hpp` declares the fixed-shape result record
`VF3Result` with fields `status : int32`, `solutions : uint64`,
`time_first : double`, `time_all : double`.  The matching engine behind
those declarations is not part of the sources, so its behaviour is
modelled here from the specification (sections 3-5 and 8-9 of the design
document); every definition obtained that way carries a doc comment
starting `Modelled from the spec:`.  The parameter and field types of the
headers themselves are embedded faithfully at the end of the definition
section (`RunVF3Sig`, `RunVF3PSig`, `VF3ResultSig`).

Wall-clock time is modelled in abstract ticks (one tick per visited
search node): the spec constrains only the ordering of the reported
times, never their absolute floating-point values.
-/

namespace VF3

/-- Modelled from the spec: `GraphModel` (section 3) — an immutable labeled
graph with dense node ids `0, ..., n-1`, an optional labeling (the
graph-level flag `labeled` says whether labels are defined) and a list of
directed edges; undirected interpretation is applied at matching time via
the `undirected` flag. -/
structure GraphModel where
  n : Nat
  labeled : Bool
  labelOf : Nat → Nat
  edges : List (Nat × Nat)

/-- Modelled from the spec: `PartialMapping` (section 3) — the in-progress
injective assignment, represented as an association list of
(pattern node, target node) pairs, most recent first. -/
abbrev PartialMap := List (Nat × Nat)

/-- Edge test: `hasEdgeB g und a b` holds when `g` has the directed edge
`(a, b)`, or, in undirected mode, the opposite orientation `(b, a)`
(undirected mode treats edge `(u,v)` as implying `(v,u)`). -/
def hasEdgeB (g : GraphModel) (und : Bool) (a b : Nat) : Bool :=
  g.edges.contains (a, b) || (und && g.edges.contains (b, a))

/-- Propositional form of `hasEdgeB`. -/
def HasEdge (g : GraphModel) (und : Bool) (a b : Nat) : Prop :=
  hasEdgeB g und a b = true

instance (g : GraphModel) (und : Bool) (a b : Nat) :
    Decidable (HasEdge g und a b) := by
  unfold HasEdge; exact inferInstance

/-- Neighbour test, direction-blind: `a` and `b` are adjacent in `g` in
either orientation. -/
def nbrB (g : GraphModel) (a b : Nat) : Bool :=
  g.edges.contains (a, b) || g.edges.contains (b, a)

/-- A pattern node `u` is already mapped by `m`. -/
def mappedB (m : PartialMap) (u : Nat) : Bool :=
  m.any (fun wx => wx.1 == u)

/-- A target node `v` is already the image of some pattern node under `m`. -/
def usedB (m : PartialMap) (v : Nat) : Bool :=
  m.any (fun wx => wx.2 == v)

/-- Modelled from the spec: label compatibility (section 4.2) — if labels
are defined on both graphs, the pattern node's label must equal the target
node's label. -/
def labelOkB (p t : GraphModel) (u v : Nat) : Bool :=
  if p.labeled && t.labeled then p.labelOf u == t.labelOf v else true

/-- Modelled from the spec: the syntactic-feasibility test for one already
mapped pair `(w, x)` against the tentative pair `(u, v)` (section 4.2):
every pattern edge between `u` and `w` (in either direction, respecting
the undirected flag) must have a corresponding target edge between `v` and
`x`; under edge-induced matching a pattern non-edge must additionally be
matched by a target non-edge. -/
def pairFeasB (p t : GraphModel) (und ind : Bool) (u v w x : Nat) : Bool :=
  (!hasEdgeB p und u w || hasEdgeB t und v x) &&
  (!hasEdgeB p und w u || hasEdgeB t und x v) &&
  (!ind || ((hasEdgeB p und u w || !hasEdgeB t und v x) &&
            (hasEdgeB p und w u || !hasEdgeB t und x v)))

/-- Modelled from the spec: syntactic feasibility (section 4.2) — the pair
test must hold against every already-mapped pair of `m`. -/
def synFeasB (p t : GraphModel) (und ind : Bool) (m : PartialMap)
    (u v : Nat) : Bool :=
  m.all (fun wx => pairFeasB p t und ind u v wx.1 wx.2)

/-- Count of not-yet-mapped pattern neighbours of `u`. -/
def unmappedNbrCountP (p : GraphModel) (m : PartialMap) (u : Nat) : Nat :=
  ((List.range p.n).filter (fun w => nbrB p w u && !mappedB m w)).length

/-- Count of not-yet-used target neighbours of `v`. -/
def unmappedNbrCountT (t : GraphModel) (m : PartialMap) (v : Nat) : Nat :=
  ((List.range t.n).filter (fun y => nbrB t y v && !usedB m y)).length

/-- Modelled from the spec: look-ahead feasibility (section 4.2) — the
count of not-yet-mapped target neighbours of the candidate must be at
least the count of not-yet-mapped pattern neighbours of the pattern
node. -/
def lookAheadB (p t : GraphModel) (m : PartialMap) (u v : Nat) : Bool :=
  Nat.ble (unmappedNbrCountP p m u) (unmappedNbrCountT t m v)

/-- Modelled from the spec: `tryExtend` (section 4.2) — the candidate pair
`(u, v)` may extend the partial mapping `m` exactly when injectivity,
label compatibility, syntactic feasibility and look-ahead feasibility all
hold. -/
def tryExtend (p t : GraphModel) (und ind : Bool) (m : PartialMap)
    (u v : Nat) : Bool :=
  !usedB m v && labelOkB p t u v && synFeasB p t und ind m u v &&
    lookAheadB p t m u v

/-- Modelled from the spec: `VariableOrdering` (section 4.1) — a
deterministic permutation of the pattern node ids, computed once before
the search.  The heuristic tie-breaking (degree, label rarity) is left
unspecified by the spec, so the identity order is used; every claim below
is insensitive to the particular permutation chosen. -/
def variableOrdering (p : GraphModel) : List Nat :=
  List.range p.n

/-- Modelled from the spec: the `MatchingEngine` core (section 4.3) — a
depth-first backtracking search over the remaining positions of the
variable ordering.  Candidates are drawn from all target nodes and
filtered by `tryExtend` (the spec's restriction of candidate generation to
neighbours of already-mapped nodes is a pruning of candidates that
`tryExtend` rejects anyway).  Returns the list of full matches, in the
deterministic discovery order. -/
def search (p t : GraphModel) (und ind : Bool) :
    List Nat → PartialMap → List PartialMap
  | [], m => [m]
  | u :: rest, m =>
      (List.range t.n).flatMap fun v =>
        if tryExtend p t und ind m u v then
          search p t und ind rest ((u, v) :: m)
        else
          []

/-- Modelled from the spec: the early-stopping variant of the engine used
when `first_only` is set (section 4.3) — the first full match aborts the
entire search immediately. -/
def searchFirst (p t : GraphModel) (und ind : Bool) :
    List Nat → PartialMap → Option PartialMap
  | [], m => some m
  | u :: rest, m =>
      (List.range t.n).findSome? fun v =>
        if tryExtend p t und ind m u v then
          searchFirst p t und ind rest ((u, v) :: m)
        else
          none

/-- Modelled from the spec: the tick trace of one engine run — one entry
per visited search node, `true` marking the completion of a full match.
Time is measured in these abstract ticks. -/
def searchTrace (p t : GraphModel) (und ind : Bool) :
    List Nat → PartialMap → List Bool
  | [], _ => [true]
  | u :: rest, m =>
      (List.range t.n).flatMap fun v =>
        false :: (if tryExtend p t und ind m u v then
          searchTrace p t und ind rest ((u, v) :: m)
        else
          [])

/-- The full solution list of one pattern/target pair under the given
flags. -/
def solutionsOf (p t : GraphModel) (und ind : Bool) : List PartialMap :=
  search p t und ind (variableOrdering p) []

/-- Declarative injectivity condition of `tryExtend`: the candidate target
node is not already the image of another pattern node. -/
def NotUsed (m : PartialMap) (v : Nat) : Prop :=
  ∀ wx ∈ m, wx.2 ≠ v

/-- Declarative label condition of `tryExtend`: when labels are defined on
both graphs, the pattern node's label equals the target node's label. -/
def LabelCompatible (p t : GraphModel) (u v : Nat) : Prop :=
  p.labeled = true → t.labeled = true → p.labelOf u = t.labelOf v

/-- Declarative syntactic-feasibility condition of `tryExtend`: for every
already-mapped pair `(w, x)`, each pattern edge between `u` and `w`
(respecting direction and the undirected flag) has a target edge between
`v` and `x`, and under edge-induced matching each pattern non-edge is
matched by a target non-edge. -/
def SynFeasible (p t : GraphModel) (und ind : Bool) (m : PartialMap)
    (u v : Nat) : Prop :=
  ∀ wx ∈ m,
    (HasEdge p und u wx.1 → HasEdge t und v wx.2) ∧
    (HasEdge p und wx.1 u → HasEdge t und wx.2 v) ∧
    (ind = true →
      (¬HasEdge p und u wx.1 → ¬HasEdge t und v wx.2) ∧
      (¬HasEdge p und wx.1 u → ¬HasEdge t und wx.2 v))

/-- Declarative look-ahead condition of `tryExtend`: at least as many
not-yet-used target neighbours of `v` as not-yet-mapped pattern
neighbours of `u`. -/
def LookAheadOk (p t : GraphModel) (m : PartialMap) (u v : Nat) : Prop :=
  unmappedNbrCountP p m u ≤ unmappedNbrCountT t m v

/-- Consistency of a partial mapping: functionality and injectivity of the
association list, target nodes in range, label compatibility of every
pair, and edge/non-edge consistency of every pair of distinct mapped
pattern nodes (non-edge consistency only under edge-induced matching). -/
def Consistent (p t : GraphModel) (und ind : Bool) (m : PartialMap) : Prop :=
  (m.map Prod.fst).Nodup ∧
  (m.map Prod.snd).Nodup ∧
  (∀ ux ∈ m, ux.2 < t.n) ∧
  (∀ ux ∈ m, labelOkB p t ux.1 ux.2 = true) ∧
  (∀ ux ∈ m, ∀ wy ∈ m, ux.1 ≠ wy.1 →
    (HasEdge p und ux.1 wy.1 → HasEdge t und ux.2 wy.2) ∧
    (ind = true → ¬HasEdge p und ux.1 wy.1 → ¬HasEdge t und ux.2 wy.2))

/-- A valid full solution: a total (on the pattern nodes), functional,
injective assignment that is consistent — label compatible, edge
consistent (with undirected symmetry applied through the `und` flag) and,
under edge-induced matching, non-edge consistent. -/
def IsSolution (p t : GraphModel) (und ind : Bool) (m : PartialMap) : Prop :=
  (∀ u ∈ List.range p.n, ∃ x, (u, x) ∈ m) ∧ Consistent p t und ind m

/-- Time to the first solution within one run, in ticks: one tick past the
false prefix of the trace when a solution exists, `0` (meaningless)
otherwise. -/
def timeToFirst (tr : List Bool) : Nat :=
  if tr.contains true then (tr.takeWhile (fun b => !b)).length + 1 else 0

/-- Total time of one run, in ticks: the length of the trace. -/
def totalTime (tr : List Bool) : Nat :=
  tr.length

/-- Modelled from the spec: one engine invocation measured by the
`ExecutionDriver` (section 4.4) — counts matches (first-only stops at the
first one) and records the two tick measurements.  The record shape
mirrors `VF3Result` of `vf3_bridge_common.hpp`; times are abstract ticks
here, the declared field widths are embedded separately in
`VF3ResultSig`. -/
structure VF3Result where
  status : Int
  solutions : Nat
  time_first : Nat
  time_all : Nat
deriving DecidableEq

/-- One measured engine run (always status 0: input validation happens in
the entry points, and `tryExtend` returning false is normal control flow,
not a failure). -/
def runOnce (p t : GraphModel) (und ind firstOnly : Bool) : VF3Result :=
  let tr := searchTrace p t und ind (variableOrdering p) []
  let cnt :=
    if firstOnly then
      match searchFirst p t und ind (variableOrdering p) [] with
      | some _ => 1
      | none => 0
    else
      tr.count true
  ⟨0, cnt, timeToFirst tr, totalTime tr⟩

/-- Wall-clock duration of one repetition, in ticks; one tick of setup
keeps every repetition strictly positive. -/
def runDuration (p t : GraphModel) (und ind : Bool) : Nat :=
  totalTime (searchTrace p t und ind (variableOrdering p) []) + 1

/-- Modelled from the spec: number of repetitions the driver performs
(section 4.4) — exactly one when the limit is zero, otherwise the least
number whose cumulative duration reaches the limit. -/
def numRuns (limit d : Nat) : Nat :=
  if limit = 0 then 1 else (limit + d - 1) / d

/-- Modelled from the spec: the per-repetition results produced by the
`ExecutionDriver` (section 4.4) — the full search is repeated, each time
with a fresh `PartialMapping` over the same graphs. -/
def driverRuns (p t : GraphModel) (und ind firstOnly : Bool)
    (limit : Nat) : List VF3Result :=
  List.replicate (numRuns limit (runDuration p t und ind))
    (runOnce p t und ind firstOnly)

/-- Modelled from the spec: the driver's reported record — the last
repetition's measurements (section 4.4). -/
def driveVF3 (p t : GraphModel) (und ind firstOnly : Bool)
    (limit : Nat) : VF3Result :=
  (driverRuns p t und ind firstOnly limit).getLastD ⟨0, 0, 0, 0⟩

/-- Well-formedness of an input graph: every edge references existing
nodes (spec section 3 invariant; violation is the `node/edge reference out
of range` input error of section 7). -/
def wellFormedB (g : GraphModel) : Bool :=
  g.edges.all fun e => Nat.blt e.1 g.n && Nat.blt e.2 g.n

/-- Combined input validation of an entry point: both external parses
succeeded (`none` models a malformed or unreadable graph encoding) and
both graphs are well-formed. -/
def inputOk (pat tgt : Option GraphModel) : Bool :=
  match pat, tgt with
  | some p, some t => wellFormedB p && wellFormedB t
  | _, _ => false

/-- Modelled from the spec: the sequential entry point `run_vf3` declared
in `vf3_bridge.hpp` (its implementation is absent from the sources).
Graph parsing is an external collaborator (section 1), so the entry point
receives each parse result directly (`none` = malformed input).  The
`store_solutions` flag routes materialization only (see
`materializedSolutions`); `verbose` routes logging only; the repetition
time limit is in abstract ticks.  Status `-1` is the malformed-input
error class, `-2` the out-of-range-reference error class. -/
def run_vf3 (pat tgt : Option GraphModel)
    (und store firstOnly verbose : Bool) (repLimit : Nat)
    (ind : Bool) : VF3Result :=
  match pat, tgt with
  | some p, some t =>
      if wellFormedB p && wellFormedB t then
        driveVF3 p t und ind firstOnly repLimit
      else
        ⟨-2, 0, 0, 0⟩
  | _, _ => ⟨-1, 0, 0, 0⟩

/-- Modelled from the spec: the memory-lean entry point `run_vf3l` —
per section 9 the three variants share one `MatchingEngine` core, the
light variant differing only in memory footprint, so it drives the same
core through the same driver. -/
def run_vf3l (pat tgt : Option GraphModel)
    (und store firstOnly verbose : Bool) (repLimit : Nat)
    (ind : Bool) : VF3Result :=
  match pat, tgt with
  | some p, some t =>
      if wellFormedB p && wellFormedB t then
        driveVF3 p t und ind firstOnly repLimit
      else
        ⟨-2, 0, 0, 0⟩
  | _, _ => ⟨-1, 0, 0, 0⟩

/-- Modelled from the spec: the `ParallelCoordinator`'s task list
(section 4.5) — the candidates of position 0 of the ordering are
partitioned into independent tasks, one per candidate subtree; each task
is the solution list of its subtree, produced by the shared engine core
with a private `PartialMapping`. -/
def tasks (p t : GraphModel) (und ind : Bool) : List (List PartialMap) :=
  match variableOrdering p with
  | [] => [search p t und ind [] []]
  | u :: rest =>
      (List.range t.n).map fun v =>
        if tryExtend p t und ind [] u v then
          search p t und ind rest [(u, v)]
        else
          []

/-- Modelled from the spec: the work-queue discipline (section 4.5) — the
`algo` selector and the lock-free flag choose among load-balancing
strategies, which may change only the order in which tasks are executed,
never losing or duplicating a task.  Modelled as order permutations of
the task list. -/
def schedule (algo : Int) (lockFree : Bool) (ts : List (List PartialMap)) :
    List (List PartialMap) :=
  if lockFree then ts.reverse else if algo = 0 then ts else ts.reverse

/-- Modelled from the spec: the parallel solution count — per-task counts
aggregated by the atomic accumulator (section 4.5). -/
def parallelCount (p t : GraphModel) (und ind : Bool) (algo : Int)
    (lockFree : Bool) : Nat :=
  ((schedule algo lockFree (tasks p t und ind)).map List.length).sum

/-- Modelled from the spec: the parallel entry point `run_vf3p` declared
in `vf3_bridge.hpp`.  It has no first-only parameter — the parallel
variant always enumerates — and additionally receives the algorithm
selector, CPU identifier, thread count, queue discipline and the two
per-worker limits; per section 4.5 these affect load balancing only and
the count is produced through the coordinator's task aggregation. -/
def run_vf3p (pat tgt : Option GraphModel) (und store verbose : Bool)
    (repLimit : Nat) (ind : Bool) (algo cpu nThreads : Int)
    (lockFree : Bool) (ssrHigh ssrLocal : Int) : VF3Result :=
  match pat, tgt with
  | some p, some t =>
      if wellFormedB p && wellFormedB t then
        let base := driveVF3 p t und ind false repLimit
        ⟨base.status, parallelCount p t und ind algo lockFree,
          base.time_first, base.time_all⟩
      else
        ⟨-2, 0, 0, 0⟩
  | _, _ => ⟨-1, 0, 0, 0⟩

/-- Modelled from the spec: the solutions materialized by the
`SolutionCollector` (section 3) — empty unless `store_solutions` is set;
under first-only at most the first match is copied out. -/
def materializedSolutions (pat tgt : Option GraphModel)
    (und store firstOnly : Bool) (ind : Bool) : List PartialMap :=
  match pat, tgt with
  | some p, some t =>
      if store && wellFormedB p && wellFormedB t then
        if firstOnly then (solutionsOf p t und ind).take 1
        else solutionsOf p t und ind
      else
        []
  | _, _ => []

/-- Bit-pattern model of a floating-point value of width `w` bits: the
spec constrains no floating-point arithmetic, only the declared widths,
so a float field is embedded as its `w`-bit pattern. -/
abbrev FloatBits (w : Nat) : Type :=
  Fin (2 ^ w)

/-- Values representable by C++ `std::int8_t`. -/
abbrev Int8Rep : Type :=
  {z : Int // -128 ≤ z ∧ z ≤ 127}

/-- Values representable by C++ `std::int16_t`. -/
abbrev Int16Rep : Type :=
  {z : Int // -32768 ≤ z ∧ z ≤ 32767}

/-- Values representable by C++ `std::int32_t`. -/
abbrev Int32Rep : Type :=
  {z : Int // -2147483648 ≤ z ∧ z ≤ 2147483647}

/-- The parameter list of `run_vf3` exactly as declared in
`vf3_bridge.hpp` lines 12-21 (and of `run_vf3l`, lines 23-32, which is
identical): three string views, four booleans, a single-precision float
repetition time limit, and the edge-induced boolean. -/
structure RunVF3Sig where
  pattern : String
  target : String
  format : String
  undirected : Bool
  store_solutions : Bool
  first_only : Bool
  verbose : Bool
  repetition_time_limit : FloatBits 32
  edge_induced : Bool

/-- The parameter list of `run_vf3p` exactly as declared in
`vf3_bridge.hpp` lines 34-48: no first-only parameter; `algo` is a
signed 8-bit integer; `cpu`, `num_threads`, `ssr_high_limit` and
`ssr_local_stack_limit` are signed 16-bit integers; the repetition time
limit is again a single-precision float. -/
structure RunVF3PSig where
  pattern : String
  target : String
  format : String
  undirected : Bool
  store_solutions : Bool
  verbose : Bool
  repetition_time_limit : FloatBits 32
  edge_induced : Bool
  algo : Int8Rep
  cpu : Int16Rep
  num_threads : Int16Rep
  lock_free : Bool
  ssr_high_limit : Int16Rep
  ssr_local_stack_limit : Int16Rep

/-- The result record exactly as declared in `vf3_bridge_common.hpp`
lines 10-15: `status : std::int32_t`, `solutions : std::uint64_t`, and
two double-precision times. -/
structure VF3ResultSig where
  status : Int32Rep
  solutions : Fin (2 ^ 64)
  time_first : FloatBits 64
  time_all : FloatBits 64

/-- The empty pattern graph. -/
def patEmpty : GraphModel :=
  ⟨0, false, fun _ => 0, []⟩

/-- A one-node unlabeled target graph with no edges. -/
def tgtOne : GraphModel :=
  ⟨1, false, fun _ => 0, []⟩

/-- A two-node pattern with the single directed edge `(0, 1)`. -/
def patEdge : GraphModel :=
  ⟨2, false, fun _ => 0, [(0, 1)]⟩

/-- A two-node target with the single directed edge `(0, 1)`. -/
def tgtEdge : GraphModel :=
  ⟨2, false, fun _ => 0, [(0, 1)]⟩

theorem usedB_eq_true_iff (m : PartialMap) (v : Nat) :
    usedB m v = true ↔ ∃ wx ∈ m, wx.2 = v := by
  simp [usedB, List.any_eq_true]

theorem usedB_eq_false_iff (m : PartialMap) (v : Nat) :
    usedB m v = false ↔ NotUsed m v := by
  rw [← Bool.not_eq_true, usedB_eq_true_iff]
  unfold NotUsed
  constructor
  · intro h wx hwx hv
    exact h ⟨wx, hwx, hv⟩
  · rintro h ⟨wx, hwx, hv⟩
    exact h wx hwx hv

theorem mappedB_eq_true_iff (m : PartialMap) (u : Nat) :
    mappedB m u = true ↔ ∃ wx ∈ m, wx.1 = u := by
  simp [mappedB, List.any_eq_true]

theorem labelOkB_iff (p t : GraphModel) (u v : Nat) :
    labelOkB p t u v = true ↔ LabelCompatible p t u v := by
  cases hp : p.labeled <;> cases ht : t.labeled <;>
    simp [labelOkB, LabelCompatible, hp, ht]

theorem pairFeasB_iff (p t : GraphModel) (und ind : Bool) (u v w x : Nat) :
    pairFeasB p t und ind u v w x = true ↔
      ((HasEdge p und u w → HasEdge t und v x) ∧
       (HasEdge p und w u → HasEdge t und x v) ∧
       (ind = true →
         (¬HasEdge p und u w → ¬HasEdge t und v x) ∧
         (¬HasEdge p und w u → ¬HasEdge t und x v))) := by
  unfold pairFeasB HasEdge
  cases ind <;> cases h1 : hasEdgeB p und u w <;>
    cases h2 : hasEdgeB t und v x <;> cases h3 : hasEdgeB p und w u <;>
    cases h4 : hasEdgeB t und x v <;> simp

theorem synFeasB_iff (p t : GraphModel) (und ind : Bool) (m : PartialMap)
    (u v : Nat) :
    synFeasB p t und ind m u v = true ↔ SynFeasible p t und ind m u v := by
  unfold synFeasB SynFeasible
  rw [List.all_eq_true]
  constructor
  · intro h wx hwx
    exact (pairFeasB_iff p t und ind u v wx.1 wx.2).mp (h wx hwx)
  · intro h wx hwx
    exact (pairFeasB_iff p t und ind u v wx.1 wx.2).mpr (h wx hwx)

theorem lookAheadB_iff (p t : GraphModel) (m : PartialMap) (u v : Nat) :
    lookAheadB p t m u v = true ↔ LookAheadOk p t m u v := by
  simp [lookAheadB, LookAheadOk, Nat.ble_eq]

theorem tryExtend_chars (p t : GraphModel) (und ind : Bool)
    (m : PartialMap) (u v : Nat) :
    tryExtend p t und ind m u v = true ↔
      NotUsed m v ∧ LabelCompatible p t u v ∧
      SynFeasible p t und ind m u v ∧ LookAheadOk p t m u v := by
  unfold tryExtend
  simp only [Bool.and_eq_true, Bool.not_eq_true']
  rw [usedB_eq_false_iff, labelOkB_iff, synFeasB_iff, lookAheadB_iff]
  tauto

theorem head?_flatMap {α β : Type} (l : List α) (f : α → List β) :
    (l.flatMap f).head? = l.findSome? fun a => (f a).head? := by
  induction l with
  | nil => rfl
  | cons a as ih =>
    rw [List.flatMap_cons, List.findSome?_cons]
    cases hfa : f a with
    | nil => simpa using ih
    | cons x xs => simp [hfa]

theorem searchFirst_eq_head (p t : GraphModel) (und ind : Bool) :
    ∀ (order : List Nat) (m : PartialMap),
      searchFirst p t und ind order m =
        (search p t und ind order m).head? := by
  intro order
  induction order with
  | nil => intro m; rfl
  | cons u rest ih =>
    intro m
    rw [searchFirst, search, head?_flatMap]
    congr 1
    funext v
    by_cases h : tryExtend p t und ind m u v = true
    · simp [h, ih]
    · simp [h]

theorem count_flatMap_eq {α : Type} (l : List α) (g : α → List Bool)
    (f : α → List PartialMap)
    (h : ∀ v ∈ l, (g v).count true = (f v).length) :
    (l.flatMap g).count true = (l.flatMap f).length := by
  induction l with
  | nil => rfl
  | cons a as ih =>
    rw [List.flatMap_cons, List.flatMap_cons, List.count_append,
      List.length_append]
    rw [h a (List.mem_cons_self a as),
      ih fun v hv => h v (List.mem_cons_of_mem a hv)]

theorem trace_count_eq_search_length (p t : GraphModel) (und ind : Bool) :
    ∀ (order : List Nat) (m : PartialMap),
      (searchTrace p t und ind order m).count true =
        (search p t und ind order m).length := by
  intro order
  induction order with
  | nil => intro m; rfl
  | cons u rest ih =>
    intro m
    rw [searchTrace, search]
    apply count_flatMap_eq
    intro v _
    by_cases h : tryExtend p t und ind m u v = true
    · simp [h, ih]
    · simp [h]

theorem takeWhile_not_length_lt (tr : List Bool)
    (h : tr.contains true = true) :
    (tr.takeWhile (fun b => !b)).length < tr.length := by
  induction tr with
  | nil => simp at h
  | cons b bs ih =>
    cases b with
    | true => simp [List.takeWhile_cons]
    | false =>
      have hb : bs.contains true = true := by simpa using h
      simpa [List.takeWhile_cons] using ih hb

theorem timeToFirst_le_totalTime (tr : List Bool) :
    timeToFirst tr ≤ totalTime tr := by
  unfold timeToFirst totalTime
  cases hc : tr.contains true
  · simp [hc]
  · have hlt := takeWhile_not_length_lt tr hc
    simp only [hc, if_true]
    omega

theorem consistent_extend (p t : GraphModel) (und ind : Bool)
    (m : PartialMap) (u v : Nat)
    (hc : Consistent p t und ind m)
    (hu : mappedB m u = false)
    (hv : v < t.n)
    (hx : tryExtend p t und ind m u v = true) :
    Consistent p t und ind ((u, v) :: m) := by
  obtain ⟨hkeys, hvals, hrange, hlab, hpair⟩ := hc
  obtain ⟨hinj, hlabel, hsyn, -⟩ :=
    (tryExtend_chars p t und ind m u v).mp hx
  have hunotin : ∀ wx ∈ m, wx.1 ≠ u := by
    intro wx hwx heq
    have hmap : mappedB m u = true :=
      (mappedB_eq_true_iff m u).mpr ⟨wx, hwx, heq⟩
    rw [hu] at hmap
    exact Bool.false_ne_true hmap
  refine ⟨?_, ?_, ?_, ?_, ?_⟩
  · rw [List.map_cons]
    refine List.nodup_cons.mpr ⟨?_, hkeys⟩
    intro hmem
    obtain ⟨wx, hwx, heq⟩ := List.mem_map.mp hmem
    exact hunotin wx hwx heq
  · rw [List.map_cons]
    refine List.nodup_cons.mpr ⟨?_, hvals⟩
    intro hmem
    obtain ⟨wx, hwx, heq⟩ := List.mem_map.mp hmem
    exact hinj wx hwx heq
  · intro ux hux
    rcases List.mem_cons.mp hux with h | h
    · subst h; exact hv
    · exact hrange ux h
  · intro ux hux
    rcases List.mem_cons.mp hux with h | h
    · subst h; exact (labelOkB_iff p t u v).mpr hlabel
    · exact hlab ux h
  · intro ux hux wy hwy hne
    rcases List.mem_cons.mp hux with h1 | h1 <;>
      rcases List.mem_cons.mp hwy with h2 | h2
    · subst h1; subst h2; exact absurd rfl hne
    · subst h1
      obtain ⟨hsyn1, -, hsyn3⟩ := hsyn wy h2
      exact ⟨hsyn1, fun hi hne' => (hsyn3 hi).1 hne'⟩
    · subst h2
      obtain ⟨-, hsyn2, hsyn3⟩ := hsyn ux h1
      exact ⟨hsyn2, fun hi hne' => (hsyn3 hi).2 hne'⟩
    · exact hpair ux h1 wy h2 hne

theorem search_sound (p t : GraphModel) (und ind : Bool) :
    ∀ (order : List Nat) (m s : PartialMap),
      Consistent p t und ind m →
      (∀ u ∈ order, mappedB m u = false) →
      order.Nodup →
      s ∈ search p t und ind order m →
      Consistent p t und ind s ∧
        s.map Prod.fst = order.reverse ++ m.map Prod.fst := by
  intro order
  induction order with
  | nil =>
    intro m s hc _ _ hs
    rw [search] at hs
    rcases List.mem_singleton.mp hs with rfl
    exact ⟨hc, by simp⟩
  | cons u rest ih =>
    intro m s hc hun hnd hs
    rw [search, List.mem_flatMap] at hs
    obtain ⟨v, hv, hsv⟩ := hs
    by_cases hx : tryExtend p t und ind m u v = true
    · rw [if_pos hx] at hsv
      have hvlt : v < t.n := List.mem_range.mp hv
      have hu : mappedB m u = false := hun u (List.mem_cons_self u rest)
      have hc' := consistent_extend p t und ind m u v hc hu hvlt hx
      have hnd' := (List.nodup_cons.mp hnd).2
      have hun' : ∀ w ∈ rest, mappedB ((u, v) :: m) w = false := by
        intro w hw
        have h1 : mappedB m w = false := hun w (List.mem_cons_of_mem u hw)
        have h2 : u ≠ w := by
          intro h
          subst h
          exact (List.nodup_cons.mp hnd).1 hw
        unfold mappedB at h1 ⊢
        rw [List.any_cons, h1, Bool.or_false]
        exact beq_eq_false_iff_ne.mpr h2
      obtain ⟨hcs, hks⟩ := ih ((u, v) :: m) s hc' hun' hnd' hsv
      refine ⟨hcs, ?_⟩
      rw [hks]
      simp
    · rw [if_neg hx] at hsv
      exact absurd hsv (List.not_mem_nil s)

theorem solutionsOf_sound (p t : GraphModel) (und ind : Bool)
    (s : PartialMap) (hs : s ∈ solutionsOf p t und ind) :
    IsSolution p t und ind s := by
  have hbase : Consistent p t und ind ([] : PartialMap) :=
    ⟨by simp, by simp, by simp, by simp, by simp⟩
  have h := search_sound p t und ind (variableOrdering p) [] s hbase
    (fun u _ => rfl) (List.nodup_range p.n) hs
  obtain ⟨hcs, hks⟩ := h
  refine ⟨?_, hcs⟩
  intro u hu
  have hmem : u ∈ s.map Prod.fst := by
    rw [hks]
    simp only [variableOrdering, List.map_nil, List.append_nil,
      List.mem_reverse]
    exact hu
  obtain ⟨wx, hwx, heq⟩ := List.mem_map.mp hmem
  exact ⟨wx.2, by rw [← heq]; exact hwx⟩

theorem solutionsOf_length_keys (p t : GraphModel) (und ind : Bool)
    (s : PartialMap) (hs : s ∈ solutionsOf p t und ind) :
    s.length = p.n := by
  have hbase : Consistent p t und ind ([] : PartialMap) :=
    ⟨by simp, by simp, by simp, by simp, by simp⟩
  obtain ⟨-, hks⟩ := search_sound p t und ind (variableOrdering p) [] s hbase
    (fun u _ => rfl) (List.nodup_range p.n) hs
  have : (s.map Prod.fst).length = p.n := by
    rw [hks]
    simp [variableOrdering]
  simpa using this

theorem solutionsOf_eq_nil_of_large (p t : GraphModel) (und ind : Bool)
    (h : t.n < p.n) :
    solutionsOf p t und ind = [] := by
  by_contra hne
  obtain ⟨s, hs⟩ := List.exists_mem_of_ne_nil _ hne
  obtain ⟨-, ⟨-, hvals, hrange, -, -⟩⟩ := solutionsOf_sound p t und ind s hs
  have hsub : s.map Prod.snd ⊆ List.range t.n := by
    intro x hx
    obtain ⟨wx, hwx, heq⟩ := List.mem_map.mp hx
    rw [List.mem_range, ← heq]
    exact hrange wx hwx
  have hle : (s.map Prod.snd).length ≤ (List.range t.n).length :=
    (List.subperm_of_subset hvals hsub).length_le
  rw [List.length_map, List.length_range,
    solutionsOf_length_keys p t und ind s hs] at hle
  omega

theorem tasks_sum_length (p t : GraphModel) (und ind : Bool) :
    ((tasks p t und ind).map List.length).sum =
      (solutionsOf p t und ind).length := by
  unfold tasks solutionsOf
  cases hn : variableOrdering p with
  | nil => simp
  | cons u rest =>
    dsimp only
    rw [search, List.length_flatMap, List.map_map]

theorem schedule_perm (algo : Int) (lockFree : Bool)
    (ts : List (List PartialMap)) :
    (schedule algo lockFree ts).Perm ts := by
  unfold schedule
  cases lockFree
  · by_cases ha : algo = 0
    · simp [ha]
    · simp [ha, List.reverse_perm]
  · simp [List.reverse_perm]

theorem parallelCount_eq (p t : GraphModel) (und ind : Bool) (algo : Int)
    (lockFree : Bool) :
    parallelCount p t und ind algo lockFree =
      (solutionsOf p t und ind).length := by
  unfold parallelCount
  rw [← tasks_sum_length p t und ind]
  exact List.Perm.sum_eq ((schedule_perm algo lockFree _).map List.length)

theorem getLastD_replicate {α : Type} (x : α) :
    ∀ (n : Nat) (d : α), 0 < n → (List.replicate n x).getLastD d = x := by
  intro n
  induction n with
  | zero => intro d h; omega
  | succ k ih =>
    intro d _
    rw [List.replicate_succ, List.getLastD_cons]
    cases hk : k with
    | zero => rfl
    | succ j =>
      rw [← hk]
      exact ih x (by omega)

theorem runDuration_pos (p t : GraphModel) (und ind : Bool) :
    0 < runDuration p t und ind := by
  unfold runDuration
  omega

theorem numRuns_zero_limit (d : Nat) : numRuns 0 d = 1 := by
  unfold numRuns
  simp

theorem numRuns_pos (limit d : Nat) (hd : 0 < d) : 0 < numRuns limit d := by
  unfold numRuns
  by_cases h : limit = 0
  · simp [h]
  · rw [if_neg h]
    exact Nat.div_pos (by omega) hd

theorem numRuns_reaches (limit d : Nat) (hd : 0 < d) (hl : limit ≠ 0) :
    limit ≤ numRuns limit d * d ∧ (numRuns limit d - 1) * d < limit := by
  have h1 := Nat.div_add_mod (limit + d - 1) d
  have h2 : (limit + d - 1) % d < d := Nat.mod_lt _ hd
  have h3 : numRuns limit d * d = d * ((limit + d - 1) / d) := by
    unfold numRuns
    rw [if_neg hl, Nat.mul_comm]
  have h4 : (numRuns limit d - 1) * d = numRuns limit d * d - d := by
    rw [Nat.sub_mul, Nat.one_mul]
  omega

theorem driveVF3_eq_runOnce (p t : GraphModel) (und ind firstOnly : Bool)
    (limit : Nat) :
    driveVF3 p t und ind firstOnly limit = runOnce p t und ind firstOnly := by
  unfold driveVF3 driverRuns
  exact getLastD_replicate _ _ _
    (numRuns_pos limit _ (runDuration_pos p t und ind))

theorem runOnce_solutions_enum (p t : GraphModel) (und ind : Bool) :
    (runOnce p t und ind false).solutions =
      (solutionsOf p t und ind).length := by
  simp only [runOnce]
  exact trace_count_eq_search_length p t und ind _ []

theorem run_vf3_count_wf (p t : GraphModel) (und store fo vb : Bool)
    (rl : Nat) (ind : Bool)
    (hw : (wellFormedB p && wellFormedB t) = true) :
    run_vf3 (some p) (some t) und store fo vb rl ind =
      runOnce p t und ind fo := by
  unfold run_vf3
  dsimp only
  rw [if_pos hw]
  exact driveVF3_eq_runOnce p t und ind fo rl

theorem run_vf3p_count_wf (p t : GraphModel) (und store vb : Bool)
    (rl : Nat) (ind : Bool) (algo cpu nth : Int) (lf : Bool) (s1 s2 : Int)
    (hw : (wellFormedB p && wellFormedB t) = true) :
    (run_vf3p (some p) (some t) und store vb rl ind algo cpu nth lf
      s1 s2).solutions = (solutionsOf p t und ind).length := by
  unfold run_vf3p
  dsimp only
  rw [if_pos hw]
  exact parallelCount_eq p t und ind algo lf

/-- C1: for every pattern/target pair and fixed setting of the shared
flags, the reported solution count is identical across the three entry
points (the sequential first-only flag set to false, since the parallel
variant always enumerates), and the parallel count is additionally
identical for every choice of the algo selector and of the lock-free
queue flag. -/
theorem run_variants_count_agree (pat tgt : Option GraphModel)
    (und store fo vb : Bool) (rl : Nat) (ind : Bool)
    (a1 a2 c1 c2 n1 n2 s1 s2 s3 s4 : Int) (lf1 lf2 : Bool) :
    (run_vf3 pat tgt und store fo vb rl ind).solutions =
      (run_vf3l pat tgt und store fo vb rl ind).solutions ∧
    (run_vf3 pat tgt und store false vb rl ind).solutions =
      (run_vf3p pat tgt und store vb rl ind a1 c1 n1 lf1 s1 s2).solutions ∧
    (run_vf3p pat tgt und store vb rl ind a1 c1 n1 lf1 s1 s2).solutions =
      (run_vf3p pat tgt und store vb rl ind a2 c2 n2 lf2 s3 s4).solutions := by
  refine ⟨rfl, ?_, ?_⟩
  · cases pat with
    | none => rfl
    | some p =>
      cases tgt with
      | none => rfl
      | some t =>
        by_cases hw : (wellFormedB p && wellFormedB t) = true
        · rw [run_vf3_count_wf p t und store false vb rl ind hw,
            run_vf3p_count_wf p t und store vb rl ind a1 c1 n1 lf1 s1 s2 hw,
            runOnce_solutions_enum]
        · unfold run_vf3 run_vf3p
          dsimp only
          rw [if_neg hw, if_neg hw]
  · cases pat with
    | none => rfl
    | some p =>
      cases tgt with
      | none => rfl
      | some t =>
        by_cases hw : (wellFormedB p && wellFormedB t) = true
        · rw [run_vf3p_count_wf p t und store vb rl ind a1 c1 n1 lf1 s1 s2 hw,
            run_vf3p_count_wf p t und store vb rl ind a2 c2 n2 lf2 s3 s4 hw]
        · unfold run_vf3p
          dsimp only
          rw [if_neg hw, if_neg hw]

/-- C2: `tryExtend` succeeds exactly when all four feasibility conditions
hold — the candidate target node is not already used (injectivity), label
compatibility, syntactic feasibility against every already-mapped pair
(edge consistency respecting direction and the undirected flag, and under
edge-induced matching also non-edge consistency), and the look-ahead
neighbour-count bound. -/
theorem tryExtend_iff_feasible (p t : GraphModel) (und ind : Bool)
    (m : PartialMap) (u v : Nat) :
    tryExtend p t und ind m u v = true ↔
      NotUsed m v ∧ LabelCompatible p t u v ∧
      SynFeasible p t und ind m u v ∧ LookAheadOk p t m u v :=
  tryExtend_chars p t und ind m u v

/-- C8: in every result record produced by any of the three entry points
the time-to-first-solution field never exceeds the total-time field. -/
theorem time_first_le_time_all (pat tgt : Option GraphModel)
    (und store fo vb : Bool) (rl : Nat) (ind : Bool)
    (algo cpu nth : Int) (lf : Bool) (s1 s2 : Int) :
    (run_vf3 pat tgt und store fo vb rl ind).time_first ≤
      (run_vf3 pat tgt und store fo vb rl ind).time_all ∧
    (run_vf3l pat tgt und store fo vb rl ind).time_first ≤
      (run_vf3l pat tgt und store fo vb rl ind).time_all ∧
    (run_vf3p pat tgt und store vb rl ind algo cpu nth lf s1 s2).time_first ≤
      (run_vf3p pat tgt und store vb rl ind algo cpu nth lf s1 s2).time_all := by
  have hseq : ∀ (p t : GraphModel) (fo' : Bool),
      (run_vf3 (some p) (some t) und store fo' vb rl ind).time_first ≤
        (run_vf3 (some p) (some t) und store fo' vb rl ind).time_all := by
    intro p t fo'
    by_cases hw : (wellFormedB p && wellFormedB t) = true
    · rw [run_vf3_count_wf p t und store fo' vb rl ind hw]
      exact timeToFirst_le_totalTime _
    · unfold run_vf3
      dsimp only
      rw [if_neg hw]
  refine ⟨?_, ?_, ?_⟩
  · cases pat with
    | none => exact Nat.le_refl 0
    | some p =>
      cases tgt with
      | none => exact Nat.le_refl 0
      | some t => exact hseq p t fo
  · cases pat with
    | none => exact Nat.le_refl 0
    | some p =>
      cases tgt with
      | none => exact Nat.le_refl 0
      | some t =>
        show (run_vf3 (some p) (some t) und store fo vb rl ind).time_first ≤
          (run_vf3 (some p) (some t) und store fo vb rl ind).time_all
        exact hseq p t fo
  · cases pat with
    | none => exact Nat.le_refl 0
    | some p =>
      cases tgt with
      | none => exact Nat.le_refl 0
      | some t =>
        unfold run_vf3p
        dsimp only
        by_cases hw : (wellFormedB p && wellFormedB t) = true
        · rw [if_pos hw]
          dsimp only
          rw [driveVF3_eq_runOnce]
          exact timeToFirst_le_totalTime _
        · rw [if_neg hw]

/-- C9: two invocations of the sequential entry point with identical
inputs, identical flags and repetition time limit zero report identical
solution counts — the search is deterministic. -/
theorem identical_invocations_identical_counts
    (pat pat' tgt tgt' : Option GraphModel)
    (und und' store store' fo fo' vb vb' ind ind' : Bool)
    (h1 : pat = pat') (h2 : tgt = tgt') (h3 : und = und')
    (h4 : store = store') (h5 : fo = fo') (h6 : vb = vb')
    (h7 : ind = ind') :
    (run_vf3 pat tgt und store fo vb 0 ind).solutions =
      (run_vf3 pat' tgt' und' store' fo' vb' 0 ind').solutions := by
  subst h1; subst h2; subst h3; subst h4; subst h5; subst h6; subst h7
  rfl

/-- Witness for C9 at a concrete invocation pair. -/
theorem identical_invocations_witness :
    (run_vf3 (some patEdge) (some tgtEdge) false true false false 0
      false).solutions =
      (run_vf3 (some patEdge) (some tgtEdge) false true false false 0
        false).solutions :=
  identical_invocations_identical_counts (some patEdge) (some patEdge)
    (some tgtEdge) (some tgtEdge) false false true true false false
    false false false false rfl rfl rfl rfl rfl rfl rfl

theorem mem_of_head?_eq {α : Type} (l : List α) (a : α)
    (h : l.head? = some a) : a ∈ l := by
  cases l with
  | nil => exact absurd h (by simp)
  | cons b bs =>
    rw [List.head?_cons] at h
    rw [← Option.some.inj h]
    exact List.mem_cons_self b bs

/-- C3: the store-solutions flag never changes the reported count, and
every materialized solution is a valid injective mapping: label
compatible, edge consistent (undirected symmetry applied through the
flag) and, under edge-induced matching, non-edge consistent. -/
theorem store_flag_count_and_materialized_valid
    (pat tgt : Option GraphModel) (und fo vb : Bool) (rl : Nat)
    (ind : Bool) :
    (run_vf3 pat tgt und false fo vb rl ind).solutions =
      (run_vf3 pat tgt und true fo vb rl ind).solutions ∧
    ∀ s ∈ materializedSolutions pat tgt und true fo ind,
      ∃ p t, pat = some p ∧ tgt = some t ∧ IsSolution p t und ind s := by
  refine ⟨rfl, ?_⟩
  intro s hs
  unfold materializedSolutions at hs
  cases pat with
  | none => exact absurd hs (List.not_mem_nil s)
  | some p =>
    cases tgt with
    | none => exact absurd hs (List.not_mem_nil s)
    | some t =>
      dsimp only at hs
      by_cases hw : (true && wellFormedB p && wellFormedB t) = true
      · rw [if_pos hw] at hs
        refine ⟨p, t, rfl, rfl, ?_⟩
        cases fo with
        | true =>
          rw [if_pos rfl] at hs
          exact solutionsOf_sound p t und ind s (List.mem_of_mem_take hs)
        | false =>
          rw [if_neg (by simp)] at hs
          exact solutionsOf_sound p t und ind s hs
      · rw [if_neg hw] at hs
        exact absurd hs (List.not_mem_nil s)

/-- Witness for C3 at a concrete pattern/target pair with its materialized
solution. -/
theorem store_flag_witness :
    (run_vf3 (some patEdge) (some tgtEdge) false false false false 0
        false).solutions =
      (run_vf3 (some patEdge) (some tgtEdge) false true false false 0
        false).solutions ∧
    ∃ p t, some patEdge = some p ∧ some tgtEdge = some t ∧
      IsSolution p t false false [(1, 1), (0, 0)] := by
  obtain ⟨h1, h2⟩ := store_flag_count_and_materialized_valid
    (some patEdge) (some tgtEdge) false false false 0 false
  exact ⟨h1, h2 [(1, 1), (0, 0)] (by decide)⟩

/-- C4: with first-only set the sequential entry point reports count 0 or
1; when it reports 1 the found solution is a member of the full solution
set; and the parallel entry point — whose declared parameter list has no
first-only flag — always reports the full enumeration count. -/
theorem first_only_count_membership (pat tgt : Option GraphModel)
    (und store vb : Bool) (rl : Nat) (ind : Bool)
    (algo cpu nth : Int) (lf : Bool) (s1 s2 : Int) :
    (run_vf3 pat tgt und store true vb rl ind).solutions ≤ 1 ∧
    ((run_vf3 pat tgt und store true vb rl ind).solutions = 1 →
      ∃ p t s, pat = some p ∧ tgt = some t ∧
        searchFirst p t und ind (variableOrdering p) [] = some s ∧
        s ∈ solutionsOf p t und ind) ∧
    (run_vf3p pat tgt und store vb rl ind algo cpu nth lf s1 s2).solutions =
      (run_vf3 pat tgt und store false vb rl ind).solutions := by
  have hp3 : (run_vf3p pat tgt und store vb rl ind algo cpu nth lf
      s1 s2).solutions =
      (run_vf3 pat tgt und store false vb rl ind).solutions := by
    cases pat with
    | none => rfl
    | some p =>
      cases tgt with
      | none => rfl
      | some t =>
        by_cases hw : (wellFormedB p && wellFormedB t) = true
        · rw [run_vf3_count_wf p t und store false vb rl ind hw,
            run_vf3p_count_wf p t und store vb rl ind algo cpu nth lf
              s1 s2 hw, runOnce_solutions_enum]
        · unfold run_vf3 run_vf3p
          dsimp only
          rw [if_neg hw, if_neg hw]
  refine ⟨?_, ?_, hp3⟩
  · cases pat with
    | none => exact Nat.zero_le 1
    | some p =>
      cases tgt with
      | none => exact Nat.zero_le 1
      | some t =>
        by_cases hw : (wellFormedB p && wellFormedB t) = true
        · rw [run_vf3_count_wf p t und store true vb rl ind hw]
          unfold runOnce
          dsimp only
          cases searchFirst p t und ind (variableOrdering p) [] <;> simp
        · unfold run_vf3
          dsimp only
          rw [if_neg hw]
          exact Nat.zero_le 1
  · intro h1
    cases pat with
    | none => exact absurd h1 (by simp [run_vf3])
    | some p =>
      cases tgt with
      | none => exact absurd h1 (by simp [run_vf3])
      | some t =>
        by_cases hw : (wellFormedB p && wellFormedB t) = true
        · rw [run_vf3_count_wf p t und store true vb rl ind hw] at h1
          unfold runOnce at h1
          dsimp only at h1
          cases hsf : searchFirst p t und ind (variableOrdering p) [] with
          | none => rw [hsf] at h1; simp at h1
          | some s =>
            refine ⟨p, t, s, rfl, rfl, hsf, ?_⟩
            have hh : (solutionsOf p t und ind).head? = some s := by
              rw [← hsf, searchFirst_eq_head]
              rfl
            exact mem_of_head?_eq _ s hh
        · unfold run_vf3 at h1
          dsimp only at h1
          rw [if_neg hw] at h1
          exact absurd h1 (by simp)

/-- Witness for C4 at a concrete pattern/target pair where the first-only
run reports exactly one solution. -/
theorem first_only_witness :
    (run_vf3 (some patEdge) (some tgtEdge) false true true false 0
      false).solutions ≤ 1 ∧
    ∃ p t s, some patEdge = some p ∧ some tgtEdge = some t ∧
      searchFirst p t false false (variableOrdering p) [] = some s ∧
      s ∈ solutionsOf p t false false := by
  obtain ⟨h1, h2, h3⟩ := first_only_count_membership (some patEdge)
    (some tgtEdge) false true false 0 false 0 0 1 false 10 10
  exact ⟨h1, h2 (by decide)⟩

theorem runOnce_empty_pattern (t : GraphModel) (und ind fo : Bool) :
    (runOnce patEmpty t und ind fo).solutions = 1 := by
  cases fo <;> rfl

theorem runOnce_oversized (p t : GraphModel) (und ind fo : Bool)
    (h : t.n < p.n) : (runOnce p t und ind fo).solutions = 0 := by
  have hnil : search p t und ind (variableOrdering p) [] = [] :=
    solutionsOf_eq_nil_of_large p t und ind h
  unfold runOnce
  cases fo
  · dsimp only
    rw [if_neg (by decide)]
    rw [trace_count_eq_search_length, hnil]
    rfl
  · dsimp only
    rw [if_pos rfl]
    rw [searchFirst_eq_head, hnil]
    rfl

/-- C5: an empty pattern matches trivially — a successful run (status 0)
with count 1, the empty mapping — against any non-empty well-formed
target; and a well-formed pattern with more nodes than the target yields
a successful run (status 0) with count 0. -/
theorem empty_and_oversized_pattern (p t : GraphModel)
    (und store fo vb : Bool) (rl : Nat) (ind : Bool)
    (ht : wellFormedB t = true) (htn : 0 < t.n)
    (hpw : wellFormedB p = true) (hpn : t.n < p.n) :
    ((run_vf3 (some patEmpty) (some t) und store fo vb rl ind).status = 0 ∧
     (run_vf3 (some patEmpty) (some t) und store fo vb rl
        ind).solutions = 1) ∧
    ((run_vf3 (some p) (some t) und store fo vb rl ind).status = 0 ∧
     (run_vf3 (some p) (some t) und store fo vb rl ind).solutions = 0) := by
  have hwe : (wellFormedB patEmpty && wellFormedB t) = true := by
    rw [ht]; rfl
  have hwp : (wellFormedB p && wellFormedB t) = true := by
    rw [hpw, ht]; rfl
  rw [run_vf3_count_wf patEmpty t und store fo vb rl ind hwe,
    run_vf3_count_wf p t und store fo vb rl ind hwp]
  exact ⟨⟨rfl, runOnce_empty_pattern t und ind fo⟩,
    ⟨rfl, runOnce_oversized p t und ind fo hpn⟩⟩

/-- Witness for C5 at a concrete non-empty target and oversized
pattern. -/
theorem empty_and_oversized_witness :
    ((run_vf3 (some patEmpty) (some tgtOne) false true false false 0
        false).status = 0 ∧
     (run_vf3 (some patEmpty) (some tgtOne) false true false false 0
        false).solutions = 1) ∧
    ((run_vf3 (some patEdge) (some tgtOne) false true false false 0
        false).status = 0 ∧
     (run_vf3 (some patEdge) (some tgtOne) false true false false 0
        false).solutions = 0) :=
  empty_and_oversized_pattern patEdge tgtOne false true false false 0 false
    (by decide) (by decide) (by decide) (by decide)

/-- C6: with a zero repetition time limit the driver performs exactly one
run; with a nonzero limit it repeats the full search (each run a fresh
`PartialMapping` over the same graphs) until the cumulative elapsed time
reaches the limit and not longer, reports the last repetition's record,
and every repetition's count equals the reported count. -/
theorem repetition_driver_contract (p t : GraphModel) (und ind fo : Bool)
    (limit : Nat) :
    (limit = 0 → (driverRuns p t und ind fo limit).length = 1) ∧
    (limit ≠ 0 →
      limit ≤ (driverRuns p t und ind fo limit).length *
          runDuration p t und ind ∧
      ((driverRuns p t und ind fo limit).length - 1) *
          runDuration p t und ind < limit) ∧
    driveVF3 p t und ind fo limit =
      (driverRuns p t und ind fo limit).getLastD ⟨0, 0, 0, 0⟩ ∧
    (∀ r ∈ driverRuns p t und ind fo limit,
      r.solutions = (driveVF3 p t und ind fo limit).solutions) := by
  refine ⟨?_, ?_, rfl, ?_⟩
  · intro h
    subst h
    unfold driverRuns
    rw [List.length_replicate, numRuns_zero_limit]
  · intro h
    unfold driverRuns
    rw [List.length_replicate]
    exact numRuns_reaches limit _ (runDuration_pos p t und ind) h
  · intro r hr
    rw [List.eq_of_mem_replicate hr, driveVF3_eq_runOnce]

/-- Witness for C6: one run at limit 0, and at limit 5 the cumulative
duration brackets the limit. -/
theorem repetition_driver_witness :
    (driverRuns patEdge tgtEdge false false false 0).length = 1 ∧
    (5 ≤ (driverRuns patEdge tgtEdge false false false 5).length *
        runDuration patEdge tgtEdge false false ∧
      ((driverRuns patEdge tgtEdge false false false 5).length - 1) *
        runDuration patEdge tgtEdge false false < 5) := by
  constructor
  · exact (repetition_driver_contract patEdge tgtEdge false false false
      0).1 rfl
  · exact (repetition_driver_contract patEdge tgtEdge false false false
      5).2.1 (by decide)

/-- C7: every entry point returns the fixed-shape record with status 0
exactly when the inputs were accepted and a negative status (enumerating
the error class) otherwise; errors surface only through this status field
— the modelled entry points are total functions into the record type, so
nothing crosses the boundary as an exception. -/
theorem status_code_contract (pat tgt : Option GraphModel)
    (und store fo vb : Bool) (rl : Nat) (ind : Bool)
    (algo cpu nth : Int) (lf : Bool) (s1 s2 : Int) :
    ((run_vf3 pat tgt und store fo vb rl ind).status = 0 ↔
      inputOk pat tgt = true) ∧
    ((run_vf3l pat tgt und store fo vb rl ind).status = 0 ↔
      inputOk pat tgt = true) ∧
    ((run_vf3p pat tgt und store vb rl ind algo cpu nth lf
        s1 s2).status = 0 ↔ inputOk pat tgt = true) ∧
    (inputOk pat tgt = false →
      (run_vf3 pat tgt und store fo vb rl ind).status < 0 ∧
      (run_vf3l pat tgt und store fo vb rl ind).status < 0 ∧
      (run_vf3p pat tgt und store vb rl ind algo cpu nth lf
        s1 s2).status < 0) := by
  cases pat with
  | none =>
    have st1 : (run_vf3 none tgt und store fo vb rl ind).status = -1 := rfl
    have st2 : (run_vf3l none tgt und store fo vb rl ind).status = -1 := rfl
    have st3 : (run_vf3p none tgt und store vb rl ind algo cpu nth lf
        s1 s2).status = -1 := rfl
    have hio : inputOk none tgt = false := rfl
    rw [st1, st2, st3, hio]
    decide
  | some p =>
    cases tgt with
    | none =>
      have st1 : (run_vf3 (some p) none und store fo vb rl ind).status =
        -1 := rfl
      have st2 : (run_vf3l (some p) none und store fo vb rl ind).status =
        -1 := rfl
      have st3 : (run_vf3p (some p) none und store vb rl ind algo cpu nth
        lf s1 s2).status = -1 := rfl
      have hio : inputOk (some p) none = false := rfl
      rw [st1, st2, st3, hio]
      decide
    | some t =>
      by_cases hw : (wellFormedB p && wellFormedB t) = true
      · have st1 : (run_vf3 (some p) (some t) und store fo vb rl
            ind).status = 0 := by
          rw [run_vf3_count_wf p t und store fo vb rl ind hw]
          rfl
        have st2 : (run_vf3l (some p) (some t) und store fo vb rl
            ind).status = 0 := st1
        have st3 : (run_vf3p (some p) (some t) und store vb rl ind algo
            cpu nth lf s1 s2).status = 0 := by
          unfold run_vf3p
          dsimp only
          rw [if_pos hw]
          dsimp only
          rw [driveVF3_eq_runOnce]
          rfl
        have hio : inputOk (some p) (some t) = true := hw
        rw [st1, st2, st3, hio]
        decide
      · have hwf : (wellFormedB p && wellFormedB t) = false :=
          Bool.eq_false_iff.mpr hw
        have st1 : (run_vf3 (some p) (some t) und store fo vb rl
            ind).status = -2 := by
          unfold run_vf3
          dsimp only
          rw [if_neg hw]
        have st2 : (run_vf3l (some p) (some t) und store fo vb rl
            ind).status = -2 := st1
        have st3 : (run_vf3p (some p) (some t) und store vb rl ind algo
            cpu nth lf s1 s2).status = -2 := by
          unfold run_vf3p
          dsimp only
          rw [if_neg hw]
        have hio : inputOk (some p) (some t) = false := hwf
        rw [st1, st2, st3, hio]
        decide

/-- Witness for C7 at a malformed pattern input: status is negative and
not success. -/
theorem status_code_witness :
    ((run_vf3 none (some tgtOne) false true false false 0 false).status =
      0 ↔ inputOk none (some tgtOne) = true) ∧
    (run_vf3 none (some tgtOne) false true false false 0
      false).status < 0 := by
  obtain ⟨h1, h2, h3, h4⟩ := status_code_contract none (some tgtOne)
    false true false false 0 false 0 0 1 false 10 10
  exact ⟨h1, (h4 rfl).1⟩

/-- C10: at the declared interface the parallel entry point's `algo`
selector is a signed 8-bit integer and its `cpu`, `num_threads`,
`ssr_high_limit` and `ssr_local_stack_limit` are signed 16-bit integers —
no invocation can request more than 32767 threads or a per-worker limit
above 32767, and negative values are expressible for all five — and in
every entry point the repetition time limit is a single-precision 32-bit
float while the result record's times are double-precision 64-bit
values. -/
theorem ffi_declared_widths :
    (∀ a : RunVF3PSig,
      a.algo.val ≤ 127 ∧ a.cpu.val ≤ 32767 ∧ a.num_threads.val ≤ 32767 ∧
      a.ssr_high_limit.val ≤ 32767 ∧
      a.ssr_local_stack_limit.val ≤ 32767 ∧
      a.repetition_time_limit.val < 2 ^ 32) ∧
    (∃ a : RunVF3PSig,
      a.algo.val < 0 ∧ a.cpu.val < 0 ∧ a.num_threads.val < 0 ∧
      a.ssr_high_limit.val < 0 ∧ a.ssr_local_stack_limit.val < 0) ∧
    (∀ a : RunVF3Sig, a.repetition_time_limit.val < 2 ^ 32) ∧
    (∃ r : VF3ResultSig,
      2 ^ 32 ≤ r.time_first.val ∧ 2 ^ 32 ≤ r.time_all.val) := by
  refine ⟨?_, ?_, ?_, ?_⟩
  · intro a
    exact ⟨a.algo.property.2, a.cpu.property.2, a.num_threads.property.2,
      a.ssr_high_limit.property.2, a.ssr_local_stack_limit.property.2,
      a.repetition_time_limit.isLt⟩
  · refine ⟨⟨"", "", "", false, false, false, ⟨0, by norm_num⟩, false,
      ⟨-1, by norm_num⟩, ⟨-1, by norm_num⟩, ⟨-1, by norm_num⟩, false,
      ⟨-1, by norm_num⟩, ⟨-1, by norm_num⟩⟩, ?_⟩
    norm_num
  · intro a
    exact a.repetition_time_limit.isLt
  · refine ⟨⟨⟨0, by norm_num⟩, ⟨0, by norm_num⟩, ⟨2 ^ 32, by norm_num⟩,
      ⟨2 ^ 32, by norm_num⟩⟩, ?_⟩
    norm_num

end VF3

